import Mathlib

/-!
Shallow embedding of the contact-ingestion pipeline of
`src/components/contacts/ContactUpload.tsx` (CSV parsing, header/column
resolution, email validation, row classification, progress reporting) and of
the contact-submission helpers (`uploadContacts`).

Strings are modelled as `List Char`; JS `undefined` as `Option.none`;
JS numbers as exact rationals (`ℚ`) where arithmetic matters.
-/

namespace ColdNurture

/-- The ASCII part of the JS regex class `\s` (space, tab, line feed,
vertical tab, form feed, carriage return), which is also what
`String.prototype.trim` removes at the ends. -/
def isWsChar (c : Char) : Bool :=
  c == ' ' || c == '\t' || c == '\n' || c == '\r' || c == '\x0b' || c == '\x0c'

/-- The regex character class `[^\s@]` of `validateEmail`. -/
def isEmailChar (c : Char) : Bool :=
  !(isWsChar c) && !(c == '@')

/-- Backtracking matcher for a regex fragment `p+` followed by a
continuation `k` on the rest of the input: consume one `p`-character, then
either hand the remainder to `k` or keep consuming. -/
def plusThen (p : Char → Bool) (k : List Char → Bool) : List Char → Bool
  | [] => false
  | c :: cs => p c && (k cs || plusThen p k cs)

/-- The `\.[^\s@]+$` tail of the `validateEmail` regex: a literal dot, then
one or more `[^\s@]` characters, then the end of the input. -/
def matchDotTail : List Char → Bool
  | [] => false
  | c :: s => c == '.' && plusThen isEmailChar List.isEmpty s

/-- The `@[^\s@]+\.[^\s@]+$` tail of the `validateEmail` regex. -/
def matchAtTail : List Char → Bool
  | [] => false
  | c :: s => c == '@' && plusThen isEmailChar matchDotTail s

/-- Embeds `validateEmail` (ContactUpload.tsx lines 63-66): tests the anchored
regex `/^[^\s@]+@[^\s@]+\.[^\s@]+$/`. -/
def validateEmail (s : List Char) : Bool :=
  plusThen isEmailChar matchAtTail s

/-- The regex class `["']` used by the cell clean-up
`replace(/^["']|["']$/g, '')`. -/
def isQuoteChar (c : Char) : Bool :=
  c == '"' || c == '\x27'

/-- JS `String.prototype.trim`: drop whitespace from both ends. -/
def trimList (s : List Char) : List Char :=
  ((s.dropWhile isWsChar).reverse.dropWhile isWsChar).reverse

/-- The `^["']` alternative of `replace(/^["']|["']$/g, '')`: with the `g`
flag and no `m` flag the `^` anchor matches only at the very start, so at
most one leading quote character is removed. -/
def stripLeadQ : List Char → List Char
  | [] => []
  | c :: cs => if isQuoteChar c then cs else c :: cs

/-- The `["']$` alternative of `replace(/^["']|["']$/g, '')`: at most one
trailing quote character is removed from what the left-to-right scan has
left over. -/
def stripTrailQ (s : List Char) : List Char :=
  match s.getLast? with
  | none => s
  | some c => if isQuoteChar c then s.dropLast else s

/-- Cell clean-up from processFile line 79:
`cell.trim().replace(/^["']|["']$/g, '')`. -/
def normCell (s : List Char) : List Char :=
  stripTrailQ (stripLeadQ (trimList s))

/-- JS `String.prototype.split` with a one-character separator: `""` splits
to `[""]`, separators at the ends produce empty fields. -/
def splitOnChar (sep : Char) : List Char → List (List Char)
  | [] => [[]]
  | c :: cs =>
    match splitOnChar sep cs with
    | [] => [[]]
    | h :: t => if c == sep then [] :: h :: t else (c :: h) :: t

/-- CSV parsing from processFile lines 78-80:
`text.split('\n').map(row => row.split(',').map(cell => cell.trim().replace(/^["']|["']$/g, '')))`. -/
def parseCSV (text : List Char) : List (List (List Char)) :=
  (splitOnChar '\n' text).map (fun row => (splitOnChar ',' row).map normCell)

/-- JS `Array.prototype.findIndex`, with `none` standing for `-1`. -/
def findIndex (p : α → Bool) : List α → Option Nat
  | [] => none
  | a :: as => if p a then some 0 else (findIndex p as).map (· + 1)

/-- JS `String.prototype.includes`: contiguous-substring test. -/
def includesSub (needle : List Char) : List Char → Bool
  | [] => needle.isEmpty
  | c :: tl => needle.isPrefixOf (c :: tl) || includesSub needle tl

/-- Header predicate for the email column (processFile lines 95-97):
`h.includes('email') || h.includes('e-mail') || h.includes('mail')`. -/
def emailHdr (h : List Char) : Bool :=
  includesSub "email".toList h || includesSub "e-mail".toList h ||
    includesSub "mail".toList h

/-- Header predicate for the first-name column (lines 98-100). -/
def firstNameHdr (h : List Char) : Bool :=
  includesSub "first".toList h || includesSub "fname".toList h ||
    includesSub "given".toList h

/-- Header predicate for the last-name column (lines 101-103). -/
def lastNameHdr (h : List Char) : Bool :=
  includesSub "last".toList h || includesSub "lname".toList h ||
    includesSub "surname".toList h || includesSub "family".toList h

/-- Header predicate for the company column (lines 104-106). -/
def companyHdr (h : List Char) : Bool :=
  includesSub "company".toList h || includesSub "organization".toList h ||
    includesSub "business".toList h

/-- Header predicate for the title column (lines 107-109). -/
def titleHdr (h : List Char) : Bool :=
  includesSub "title".toList h || includesSub "position".toList h ||
    includesSub "job".toList h

/-- The per-file mapping from logical contact fields to column indices
(`emailIndex`, `firstNameIndex`, ..., with `none` for `-1`). -/
structure ColumnMap where
  email : Option Nat
  first_name : Option Nat
  last_name : Option Nat
  company : Option Nat
  title : Option Nat
deriving DecidableEq

/-- Column resolution (processFile lines 95-109) over the already
lower-cased header cells. -/
def resolveColumns (headers : List (List Char)) : ColumnMap :=
  { email := findIndex emailHdr headers
    first_name := findIndex firstNameHdr headers
    last_name := findIndex lastNameHdr headers
    company := findIndex companyHdr headers
    title := findIndex titleHdr headers }

/-- Embeds `rows[0]?.map(h => h.toLowerCase()) || []` (processFile line 92). -/
def headersOf (rows : List (List (List Char))) : List (List Char) :=
  match rows with
  | [] => []
  | r0 :: _ => r0.map (List.map Char.toLower)

/-- Embeds `row.some(cell => cell.trim())` (processFile line 93). -/
def isNonBlankRow (row : List (List Char)) : Bool :=
  row.any (fun cell => !(trimList cell).isEmpty)

/-- Embeds `rows.slice(1).filter(row => row.some(cell => cell.trim()))`
(processFile line 93). -/
def dataRowsOf (rows : List (List (List Char))) : List (List (List Char)) :=
  (rows.drop 1).filter isNonBlankRow

/-- A Contact candidate (`interface Contact`): mandatory email, optional
remaining fields (JS `undefined` modelled as `none`). -/
structure Contact where
  email : List Char
  first_name : Option (List Char)
  last_name : Option (List Char)
  company : Option (List Char)
  title : Option (List Char)
deriving DecidableEq

/-- Embeds `idx >= 0 ? row[idx]?.trim() : undefined` (processFile lines 133-136):
a resolved index past the row's end gives `undefined`, never an error. -/
def optField (idx : Option Nat) (row : List (List Char)) : Option (List Char) :=
  match idx with
  | none => none
  | some i => (row.get? i).map trimList

/-- Embeds `row[emailIndex]?.trim()` (processFile line 128). -/
def emailCell (i : Nat) (row : List (List Char)) : Option (List Char) :=
  (row.get? i).map trimList

/-- The skip test `if (!email) return` (processFile line 129): JS treats
both `undefined` and the empty string as falsy. -/
def blankEmail : Option (List Char) → Bool
  | none => true
  | some s => s.isEmpty

/-- Contact construction (processFile lines 131-137). -/
def mkContact (cm : ColumnMap) (row : List (List Char)) (email : List Char) :
    Contact :=
  { email := email
    first_name := optField cm.first_name row
    last_name := optField cm.last_name row
    company := optField cm.company row
    title := optField cm.title row }

/-- What one iteration of the `dataRows.forEach` body does with its row
(processFile lines 128-145): skip it, or append its contact to `valid`, or
append it to `invalid`. -/
inductive RowStep where
  | skip : RowStep
  | toValid : Contact → RowStep
  | toInvalid : Contact → RowStep
deriving DecidableEq

/-- One iteration of the `dataRows.forEach` body (processFile lines
128-145): read and trim the email cell, skip on a falsy value, otherwise
build the contact and classify it with `validateEmail`. -/
def classifyRow (cm : ColumnMap) (eIdx : Nat) (row : List (List Char)) :
    RowStep :=
  match emailCell eIdx row with
  | none => .skip
  | some e =>
    if e.isEmpty then .skip
    else if validateEmail e then .toValid (mkContact cm row e)
    else .toInvalid (mkContact cm row e)

/-- The classification loop `dataRows.forEach` (processFile lines 121-146),
returning `(processedContacts, valid, invalid)`; each iteration appends at
the end, modelled here by processing the head first and consing its contact
in front of the tail's output. -/
def processRows (cm : ColumnMap) (eIdx : Nat) :
    List (List (List Char)) → List Contact × List Contact × List Contact
  | [] => ([], [], [])
  | row :: rest =>
    let out := processRows cm eIdx rest
    match classifyRow cm eIdx row with
    | .skip => out
    | .toValid c => (c :: out.1, c :: out.2.1, out.2.2)
    | .toInvalid c => (c :: out.1, out.2.1, c :: out.2.2)

/-- The sequence of values fed to `setUploadProgress` inside the row loop
(processFile line 126): `((index + 1) / dataRows.length) * 100` for each
data-row index, modelled over exact rationals. -/
def progressList (n : ℕ) : List ℚ :=
  (List.range n).map (fun (i : ℕ) => (((i : ℚ) + 1) / n) * 100)

/-- Outcome of processFile on parsed CSV content: either the
missing-email-column abort (lines 111-119), or the processed, valid and
invalid contact lists together with the reported progress values. -/
inductive IngestResult where
  | missingEmailColumn : IngestResult
  | ok : List Contact → List Contact → List Contact → List ℚ → IngestResult
deriving DecidableEq

/-- processFile (lines 72-150) on the text of a `.csv` file: parse, resolve
the column map from the lower-cased header row, abort when no email column
is found, otherwise classify every non-blank data row. -/
def processFile (text : List Char) : IngestResult :=
  let rows := parseCSV text
  let headers := headersOf rows
  let dataRows := dataRowsOf rows
  let cm := resolveColumns headers
  match cm.email with
  | none => .missingEmailColumn
  | some eIdx =>
    let out := processRows cm eIdx dataRows
    .ok out.1 out.2.1 out.2.2 (progressList dataRows.length)

/-- A row of the `contacts` insert payload (uploadContacts lines 201-208):
every key is present; `none` models an explicit SQL `null`. -/
structure InsertRow where
  campaign_id : List Char
  email : List Char
  first_name : Option (List Char)
  last_name : Option (List Char)
  company : Option (List Char)
  title : Option (List Char)
deriving DecidableEq

/-- JS `x || null`: `undefined` and `""` both coerce to `null`. -/
def orNull : Option (List Char) → Option (List Char)
  | none => none
  | some s => if s.isEmpty then none else some s

/-- Embeds `contactsToInsert` (uploadContacts lines 201-208). -/
def contactsToInsert (campaignId : List Char) (valid : List Contact) :
    List InsertRow :=
  valid.map (fun c =>
    { campaign_id := campaignId
      email := c.email
      first_name := orNull c.first_name
      last_name := orNull c.last_name
      company := orNull c.company
      title := orNull c.title })

/-- A row of the `campaigns` collection, restricted to the columns this
path touches. -/
structure CampaignRow where
  id : List Char
  total_contacts : ℕ
deriving DecidableEq

/-- Embeds the campaign-counter update of uploadContacts lines 218-223
(an update of total_contacts filtered to the matching id): overwrite the
counter of every row whose id matches. -/
def updateTotalContacts (cid : List Char) (n : ℕ) (db : List CampaignRow) :
    List CampaignRow :=
  db.map (fun r => if r.id = cid then { r with total_contacts := n } else r)

theorem plusThen_iff (p : Char → Bool) (k : List Char → Bool) (s : List Char) :
    plusThen p k s = true ↔
      ∃ t u, s = t ++ u ∧ t ≠ [] ∧ (∀ c ∈ t, p c = true) ∧ k u = true := by
  induction s with
  | nil =>
    constructor
    · intro h
      simp [plusThen] at h
    · rintro ⟨t, u, hsplit, hne, -, -⟩
      rcases t with - | ⟨c, t⟩
      · exact absurd rfl hne
      · simp at hsplit
  | cons c cs ih =>
    simp only [plusThen, Bool.and_eq_true, Bool.or_eq_true, ih]
    constructor
    · rintro ⟨hc, hk | ⟨t, u, hsplit, hne, hall, hku⟩⟩
      · exact ⟨[c], cs, rfl, by simp, by simpa using hc, hk⟩
      · refine ⟨c :: t, u, by simp [hsplit], by simp, ?_, hku⟩
        intro x hx
        rcases List.mem_cons.mp hx with rfl | hx
        · exact hc
        · exact hall x hx
    · rintro ⟨t, u, hsplit, hne, hall, hku⟩
      rcases t with - | ⟨d, t⟩
      · exact absurd rfl hne
      · simp only [List.cons_append, List.cons.injEq] at hsplit
        obtain ⟨rfl, hsplit⟩ := hsplit
        refine ⟨hall c (by simp), ?_⟩
        rcases t with - | ⟨e, t⟩
        · left
          simp only [List.nil_append] at hsplit
          exact hsplit ▸ hku
        · right
          exact ⟨e :: t, u, hsplit, by simp,
            fun x hx => hall x (List.mem_cons_of_mem _ hx), hku⟩

theorem matchDotTail_iff (s : List Char) :
    matchDotTail s = true ↔
      ∃ c, s = '.' :: c ∧ c ≠ [] ∧ (∀ x ∈ c, isEmailChar x = true) := by
  rcases s with - | ⟨d, s⟩
  · constructor
    · intro h
      simp [matchDotTail] at h
    · rintro ⟨c, hc, -, -⟩
      exact absurd hc (by simp)
  · simp only [matchDotTail, Bool.and_eq_true, beq_iff_eq, plusThen_iff]
    constructor
    · rintro ⟨rfl, t, u, rfl, hne, hall, hku⟩
      rw [List.isEmpty_iff] at hku
      subst hku
      exact ⟨t, by simp, hne, hall⟩
    · rintro ⟨c, hc, hne, hall⟩
      simp only [List.cons.injEq] at hc
      obtain ⟨rfl, rfl⟩ := hc
      exact ⟨rfl, _, [], (List.append_nil _).symm, hne, hall, by simp⟩

theorem matchAtTail_iff (s : List Char) :
    matchAtTail s = true ↔
      ∃ b c, s = '@' :: (b ++ '.' :: c) ∧ b ≠ [] ∧ c ≠ [] ∧
        (∀ x ∈ b, isEmailChar x = true) ∧ (∀ x ∈ c, isEmailChar x = true) := by
  rcases s with - | ⟨d, s⟩
  · constructor
    · intro h
      simp [matchAtTail] at h
    · rintro ⟨b, c, hc, -⟩
      exact absurd hc (by simp)
  · simp only [matchAtTail, Bool.and_eq_true, beq_iff_eq, plusThen_iff]
    constructor
    · rintro ⟨rfl, t, u, rfl, hne, hall, hku⟩
      rw [matchDotTail_iff] at hku
      obtain ⟨c, rfl, hcne, hcall⟩ := hku
      exact ⟨t, c, rfl, hne, hcne, hall, hcall⟩
    · rintro ⟨b, c, hc, hbne, hcne, hball, hcall⟩
      simp only [List.cons.injEq] at hc
      obtain ⟨rfl, rfl⟩ := hc
      refine ⟨rfl, b, '.' :: c, rfl, hbne, hball, ?_⟩
      rw [matchDotTail_iff]
      exact ⟨c, rfl, hcne, hcall⟩

theorem isEmailChar_iff (c : Char) :
    isEmailChar c = true ↔ isWsChar c = false ∧ c ≠ '@' := by
  simp [isEmailChar, Bool.and_eq_true, Bool.not_eq_true']

/-- C1: `validateEmail e` is true exactly when `e` is, anchored at both
ends, one or more characters that are neither whitespace nor `@`, then `@`,
then one or more such characters, then `.`, then one or more such
characters; no stricter address-grammar check is applied. -/
theorem validateEmail_iff_shape (e : List Char) :
    validateEmail e = true ↔
      ∃ a b c : List Char,
        e = a ++ '@' :: (b ++ '.' :: c) ∧
        a ≠ [] ∧ b ≠ [] ∧ c ≠ [] ∧
        (∀ x ∈ a, isWsChar x = false ∧ x ≠ '@') ∧
        (∀ x ∈ b, isWsChar x = false ∧ x ≠ '@') ∧
        (∀ x ∈ c, isWsChar x = false ∧ x ≠ '@') := by
  unfold validateEmail
  rw [plusThen_iff]
  constructor
  · rintro ⟨t, u, rfl, hne, hall, hku⟩
    rw [matchAtTail_iff] at hku
    obtain ⟨b, c, rfl, hbne, hcne, hball, hcall⟩ := hku
    exact ⟨t, b, c, rfl, hne, hbne, hcne,
      fun x hx => (isEmailChar_iff x).mp (hall x hx),
      fun x hx => (isEmailChar_iff x).mp (hball x hx),
      fun x hx => (isEmailChar_iff x).mp (hcall x hx)⟩
  · rintro ⟨a, b, c, rfl, hane, hbne, hcne, haall, hball, hcall⟩
    refine ⟨a, '@' :: (b ++ '.' :: c), rfl, hane,
      fun x hx => (isEmailChar_iff x).mpr (haall x hx), ?_⟩
    rw [matchAtTail_iff]
    exact ⟨b, c, rfl, hbne, hcne,
      fun x hx => (isEmailChar_iff x).mpr (hball x hx),
      fun x hx => (isEmailChar_iff x).mpr (hcall x hx)⟩

theorem classifyRow_eq_skip_iff (cm : ColumnMap) (eIdx : ℕ)
    (row : List (List Char)) :
    classifyRow cm eIdx row = .skip ↔
      blankEmail (emailCell eIdx row) = true := by
  unfold classifyRow
  cases emailCell eIdx row with
  | none => simp [blankEmail]
  | some e =>
    by_cases he : e.isEmpty <;> by_cases hv : validateEmail e <;>
      simp [blankEmail, he, hv]

theorem processRows_cons_skip (cm : ColumnMap) (eIdx : ℕ)
    (row : List (List Char)) (rest : List (List (List Char)))
    (h : classifyRow cm eIdx row = .skip) :
    processRows cm eIdx (row :: rest) = processRows cm eIdx rest := by
  simp [processRows, h]

theorem processRows_cons_valid (cm : ColumnMap) (eIdx : ℕ)
    (row : List (List Char)) (rest : List (List (List Char))) (c : Contact)
    (h : classifyRow cm eIdx row = .toValid c) :
    processRows cm eIdx (row :: rest) =
      (c :: (processRows cm eIdx rest).1,
       c :: (processRows cm eIdx rest).2.1,
       (processRows cm eIdx rest).2.2) := by
  simp [processRows, h]

theorem processRows_cons_invalid (cm : ColumnMap) (eIdx : ℕ)
    (row : List (List Char)) (rest : List (List (List Char))) (c : Contact)
    (h : classifyRow cm eIdx row = .toInvalid c) :
    processRows cm eIdx (row :: rest) =
      ((c :: (processRows cm eIdx rest).1,
        (processRows cm eIdx rest).2.1,
        c :: (processRows cm eIdx rest).2.2)) := by
  simp [processRows, h]

/-- The skipped rows of a batch: those whose email cell is blank (or
missing) after trimming. -/
def skippedRows (eIdx : ℕ) (rows : List (List (List Char))) :
    List (List (List Char)) :=
  rows.filter (fun r => blankEmail (emailCell eIdx r))

theorem processRows_counts (cm : ColumnMap) (eIdx : ℕ)
    (rows : List (List (List Char))) :
    (processRows cm eIdx rows).2.1.length + (processRows cm eIdx rows).2.2.length
        + (skippedRows eIdx rows).length = rows.length ∧
    (processRows cm eIdx rows).1.length
      = (processRows cm eIdx rows).2.1.length
        + (processRows cm eIdx rows).2.2.length := by
  induction rows with
  | nil => simp [processRows, skippedRows]
  | cons row rest ih =>
    obtain ⟨ih1, ih2⟩ := ih
    cases hc : classifyRow cm eIdx row with
    | skip =>
      have hb : blankEmail (emailCell eIdx row) = true :=
        (classifyRow_eq_skip_iff cm eIdx row).mp hc
      rw [processRows_cons_skip cm eIdx row rest hc]
      simp only [skippedRows, List.filter_cons, hb, if_true, List.length_cons]
      constructor
      · simp only [skippedRows] at ih1
        omega
      · exact ih2
    | toValid c =>
      have hb : ¬ blankEmail (emailCell eIdx row) = true := by
        intro hb
        rw [← classifyRow_eq_skip_iff cm eIdx row] at hb
        rw [hc] at hb
        exact RowStep.noConfusion hb
      rw [processRows_cons_valid cm eIdx row rest c hc]
      simp only [skippedRows, List.filter_cons, Bool.not_eq_true] at *
      rw [hb]
      simp only [if_false, List.length_cons, Bool.false_eq_true]
      constructor
      · omega
      · omega
    | toInvalid c =>
      have hb : ¬ blankEmail (emailCell eIdx row) = true := by
        intro hb
        rw [← classifyRow_eq_skip_iff cm eIdx row] at hb
        rw [hc] at hb
        exact RowStep.noConfusion hb
      rw [processRows_cons_invalid cm eIdx row rest c hc]
      simp only [skippedRows, List.filter_cons, Bool.not_eq_true] at *
      rw [hb]
      simp only [if_false, List.length_cons, Bool.false_eq_true]
      constructor
      · omega
      · omega

theorem processRows_sublists (cm : ColumnMap) (eIdx : ℕ)
    (rows : List (List (List Char))) :
    (processRows cm eIdx rows).2.1.Sublist (processRows cm eIdx rows).1 ∧
    (processRows cm eIdx rows).2.2.Sublist (processRows cm eIdx rows).1 := by
  induction rows with
  | nil => simp [processRows]
  | cons row rest ih =>
    obtain ⟨ih1, ih2⟩ := ih
    cases hc : classifyRow cm eIdx row with
    | skip =>
      rw [processRows_cons_skip cm eIdx row rest hc]
      exact ⟨ih1, ih2⟩
    | toValid c =>
      rw [processRows_cons_valid cm eIdx row rest c hc]
      exact ⟨ih1.cons₂ c, ih2.cons c⟩
    | toInvalid c =>
      rw [processRows_cons_invalid cm eIdx row rest c hc]
      exact ⟨ih1.cons c, ih2.cons₂ c⟩

theorem processFile_ok_components (text : List Char) (eIdx : ℕ)
    (he : (resolveColumns (headersOf (parseCSV text))).email = some eIdx) :
    processFile text =
      .ok (processRows (resolveColumns (headersOf (parseCSV text))) eIdx
            (dataRowsOf (parseCSV text))).1
          (processRows (resolveColumns (headersOf (parseCSV text))) eIdx
            (dataRowsOf (parseCSV text))).2.1
          (processRows (resolveColumns (headersOf (parseCSV text))) eIdx
            (dataRowsOf (parseCSV text))).2.2
          (progressList (dataRowsOf (parseCSV text)).length) := by
  simp only [processFile, he]

/-- C2: when the header resolves an email column, every non-blank data row
is handled in exactly one of three ways — appended to `valid`, appended to
`invalid`, or skipped for a blank email cell — so
`|valid| + |invalid| + |skipped| = |non-blank data rows|`, and a
blank-email row contributes to neither `valid` nor `invalid` (the processed
candidates are exactly the classified ones:
`|processed| = |valid| + |invalid|`). -/
theorem processFile_partition (text : List Char) (eIdx : ℕ)
    (ps vs ivs : List Contact) (prog : List ℚ)
    (he : (resolveColumns (headersOf (parseCSV text))).email = some eIdx)
    (h : processFile text = .ok ps vs ivs prog) :
    vs.length + ivs.length + (skippedRows eIdx (dataRowsOf (parseCSV text))).length
      = (dataRowsOf (parseCSV text)).length ∧
    ps.length = vs.length + ivs.length := by
  rw [processFile_ok_components text eIdx he] at h
  simp only [IngestResult.ok.injEq] at h
  obtain ⟨hps, hvs, hivs, -⟩ := h
  rw [← hps, ← hvs, ← hivs]
  exact processRows_counts (resolveColumns (headersOf (parseCSV text))) eIdx
    (dataRowsOf (parseCSV text))

/-- C4: when no header cell matches the email keyword set, processFile
aborts with the missing-email-column failure and produces no valid/invalid
output at all. -/
theorem processFile_missing_email_aborts (text : List Char)
    (h : (resolveColumns (headersOf (parseCSV text))).email = none) :
    processFile text = .missingEmailColumn ∧
    ∀ ps vs ivs prog, processFile text ≠ .ok ps vs ivs prog := by
  have h1 : processFile text = .missingEmailColumn := by
    simp only [processFile, h]
  refine ⟨h1, fun ps vs ivs prog hne => ?_⟩
  rw [h1] at hne
  exact IngestResult.noConfusion hne

/-- C7: the `valid` and `invalid` lists preserve source-row order — each is
an in-order subsequence of the processed-contacts sequence, which lists the
Contact candidates in the order their data rows appear. -/
theorem processFile_order_preserved (text : List Char) (eIdx : ℕ)
    (ps vs ivs : List Contact) (prog : List ℚ)
    (he : (resolveColumns (headersOf (parseCSV text))).email = some eIdx)
    (h : processFile text = .ok ps vs ivs prog) :
    vs.Sublist ps ∧ ivs.Sublist ps := by
  rw [processFile_ok_components text eIdx he] at h
  simp only [IngestResult.ok.injEq] at h
  obtain ⟨hps, hvs, hivs, -⟩ := h
  rw [← hps, ← hvs, ← hivs]
  exact processRows_sublists (resolveColumns (headersOf (parseCSV text))) eIdx
    (dataRowsOf (parseCSV text))

/-- C10: field extraction is total on short rows — a row shorter than the
email column index reads a missing email cell and is skipped exactly like a
blank one, and an optional-field index past the row's end yields an omitted
field, never a failure. -/
theorem short_row_is_skipped (cm : ColumnMap) (eIdx : ℕ)
    (row : List (List Char)) (rest : List (List (List Char)))
    (h : row.length ≤ eIdx) :
    emailCell eIdx row = none ∧
    processRows cm eIdx (row :: rest) = processRows cm eIdx rest ∧
    ∀ i : ℕ, row.length ≤ i → optField (some i) row = none := by
  have hcell : emailCell eIdx row = none := by
    unfold emailCell
    rw [List.get?_eq_none.mpr h]
    rfl
  refine ⟨hcell, ?_, ?_⟩
  · apply processRows_cons_skip
    unfold classifyRow
    rw [hcell]
  · intro i hi
    show Option.map trimList (row.get? i) = none
    rw [List.get?_eq_none.mpr hi]
    rfl

/-- The five logical contact fields a column can resolve to. -/
inductive Field where
  | email : Field
  | first_name : Field
  | last_name : Field
  | company : Field
  | title : Field
deriving DecidableEq

/-- The fixed keyword predicate of each logical field (processFile lines
95-109). -/
def fieldHdr : Field → List Char → Bool
  | .email => emailHdr
  | .first_name => firstNameHdr
  | .last_name => lastNameHdr
  | .company => companyHdr
  | .title => titleHdr

/-- The resolved column index of a logical field. -/
def ColumnMap.col (cm : ColumnMap) : Field → Option ℕ
  | .email => cm.email
  | .first_name => cm.first_name
  | .last_name => cm.last_name
  | .company => cm.company
  | .title => cm.title

theorem resolveColumns_col (headers : List (List Char)) (fld : Field) :
    (resolveColumns headers).col fld = findIndex (fieldHdr fld) headers := by
  cases fld <;> rfl

theorem findIndex_eq_none_iff (p : α → Bool) (l : List α) :
    findIndex p l = none ↔ ∀ a ∈ l, p a = false := by
  induction l with
  | nil => simp [findIndex]
  | cons x xs ih =>
    by_cases hx : p x <;>
      simp [findIndex, hx, ih, Option.map_eq_none']

theorem findIndex_eq_some_iff (p : α → Bool) (l : List α) (i : ℕ) :
    findIndex p l = some i ↔
      ∃ a, l.get? i = some a ∧ p a = true ∧
        ∀ j, j < i → ∀ b, l.get? j = some b → p b = false := by
  induction l generalizing i with
  | nil => simp [findIndex]
  | cons x xs ih =>
    by_cases hx : p x
    · have hstep : findIndex p (x :: xs) = some 0 := by simp [findIndex, hx]
      rw [hstep]
      constructor
      · intro h
        rw [Option.some.injEq] at h
        subst h
        exact ⟨x, rfl, hx, fun j hj => absurd hj (Nat.not_lt_zero j)⟩
      · rintro ⟨a, ha, hpa, hleft⟩
        rcases i with - | i
        · rfl
        · exact absurd hx (by simpa using hleft 0 (Nat.succ_pos i) x rfl)
    · have hstep : findIndex p (x :: xs) = (findIndex p xs).map (· + 1) := by
        simp [findIndex, hx]
      rw [hstep, Option.map_eq_some']
      constructor
      · rintro ⟨i', hi', rfl⟩
        obtain ⟨a, ha, hpa, hleft⟩ := (ih i').mp hi'
        refine ⟨a, ha, hpa, ?_⟩
        intro j hj b hb
        rcases j with - | j
        · rw [show (x :: xs).get? 0 = some x from rfl, Option.some.injEq] at hb
          subst hb
          simpa using hx
        · exact hleft j (Nat.lt_of_succ_lt_succ hj) b hb
      · rintro ⟨a, ha, hpa, hleft⟩
        rcases i with - | i
        · rw [show (x :: xs).get? 0 = some x from rfl, Option.some.injEq] at ha
          subst ha
          exact absurd hpa (by simpa using hx)
        · refine ⟨i, ?_, rfl⟩
          refine (ih i).mpr ⟨a, ha, hpa, ?_⟩
          intro j hj b hb
          exact hleft (j + 1) (Nat.succ_lt_succ hj) b hb

/-- C3: column resolution assigns each logical field the leftmost header
cell whose lower-cased text satisfies that field's fixed keyword predicate,
and `none` (absent) when no cell matches; since the header row is
lower-cased before matching, a header cell `"EMAIL"` resolves the email
column exactly as `"email"` does. -/
theorem resolveColumns_leftmost (fld : Field) (r0 : List (List Char))
    (rest : List (List (List Char))) :
    (∀ i : ℕ, (resolveColumns (headersOf (r0 :: rest))).col fld = some i ↔
        ∃ h, r0.get? i = some h ∧ fieldHdr fld (h.map Char.toLower) = true ∧
          ∀ j, j < i → ∀ h', r0.get? j = some h' →
            fieldHdr fld (h'.map Char.toLower) = false) ∧
    ((resolveColumns (headersOf (r0 :: rest))).col fld = none ↔
        ∀ h ∈ r0, fieldHdr fld (h.map Char.toLower) = false) ∧
    (∀ more : List (List Char),
      (resolveColumns (headersOf (("EMAIL".toList :: more) :: rest))).email
        = (resolveColumns (headersOf (("email".toList :: more) :: rest))).email) := by
  have hhdr : headersOf (r0 :: rest) = r0.map (List.map Char.toLower) := rfl
  refine ⟨?_, ?_, ?_⟩
  · intro i
    rw [resolveColumns_col, hhdr, findIndex_eq_some_iff]
    constructor
    · rintro ⟨a, ha, hpa, hleft⟩
      rw [List.get?_map, Option.map_eq_some'] at ha
      obtain ⟨h, hh, rfl⟩ := ha
      refine ⟨h, hh, hpa, ?_⟩
      intro j hj h' hh'
      exact hleft j hj (h'.map Char.toLower)
        (by rw [List.get?_map, hh']; rfl)
    · rintro ⟨h, hh, hph, hleft⟩
      refine ⟨h.map Char.toLower, by rw [List.get?_map, hh]; rfl, hph, ?_⟩
      intro j hj b hb
      rw [List.get?_map, Option.map_eq_some'] at hb
      obtain ⟨h', hh', rfl⟩ := hb
      exact hleft j hj h' hh'
  · rw [resolveColumns_col, hhdr, findIndex_eq_none_iff]
    constructor
    · intro hall h hmem
      exact hall (h.map Char.toLower) (List.mem_map_of_mem _ hmem)
    · intro hall a hmem
      rw [List.mem_map] at hmem
      obtain ⟨h, hmem, rfl⟩ := hmem
      exact hall h hmem
  · intro more
    have hlow : ("EMAIL".toList).map Char.toLower
        = ("email".toList).map Char.toLower := by decide
    show (resolveColumns (("EMAIL".toList :: more).map (List.map Char.toLower))).email
      = (resolveColumns (("email".toList :: more).map (List.map Char.toLower))).email
    rw [List.map_cons, List.map_cons, hlow]

/-- Modelled from the spec (§4.1 step 1): "strip a single matching pair of
leading/trailing quote characters" — a quote character is removed from one
end only together with a matching quote at the other end, and at most one
such pair is removed. Stated here for comparison with the source's
`normCell`. -/
def stripPairSpec (s : List Char) : List Char :=
  match s with
  | [] => []
  | c :: cs =>
    match cs.getLast? with
    | none => [c]
    | some d => if isQuoteChar c && d == c then cs.dropLast else c :: cs

theorem stripLeadQ_decomp (t : List Char) :
    ∃ a, t = a ++ stripLeadQ t ∧ a.length ≤ 1 ∧
      (∀ c ∈ a, isQuoteChar c = true) ∧
      (a ≠ [] ↔ ∃ c cs, t = c :: cs ∧ isQuoteChar c = true) := by
  rcases t with - | ⟨c, cs⟩
  · refine ⟨[], rfl, by simp, by simp, ?_⟩
    simp only [ne_eq, not_true_eq_false, false_iff]
    rintro ⟨c, cs, h, -⟩
    exact List.noConfusion h
  · by_cases hq : isQuoteChar c
    · refine ⟨[c], ?_, by simp, by simpa using hq, ?_⟩
      · show c :: cs = [c] ++ stripLeadQ (c :: cs)
        simp [stripLeadQ, hq]
      · simp only [ne_eq, List.cons_ne_nil, not_false_eq_true, true_iff]
        exact ⟨c, cs, rfl, hq⟩
    · refine ⟨[], ?_, by simp, by simp, ?_⟩
      · show c :: cs = [] ++ stripLeadQ (c :: cs)
        simp [stripLeadQ, hq]
      · simp only [ne_eq, not_true_eq_false, false_iff]
        rintro ⟨c', cs', h, hq'⟩
        rw [List.cons.injEq] at h
        exact hq (h.1 ▸ hq')

theorem stripTrailQ_decomp (t : List Char) :
    ∃ b, t = stripTrailQ t ++ b ∧ b.length ≤ 1 ∧
      (∀ c ∈ b, isQuoteChar c = true) ∧
      (b ≠ [] ↔ ∃ c, t.getLast? = some c ∧ isQuoteChar c = true) := by
  cases hl : t.getLast? with
  | none =>
    refine ⟨[], ?_, by simp, by simp, ?_⟩
    · show t = stripTrailQ t ++ []
      simp [stripTrailQ, hl]
    · simp [hl]
  | some d =>
    by_cases hq : isQuoteChar d
    · refine ⟨[d], ?_, by simp, by simpa using hq, ?_⟩
      · show t = stripTrailQ t ++ [d]
        rw [show stripTrailQ t = t.dropLast by simp [stripTrailQ, hl, hq]]
        exact (List.dropLast_append_getLast? d hl).symm
      · simp only [ne_eq, List.cons_ne_nil, not_false_eq_true, true_iff]
        exact ⟨d, rfl, hq⟩
    · refine ⟨[], ?_, by simp, by simp, ?_⟩
      · show t = stripTrailQ t ++ []
        simp [stripTrailQ, hl, hq]
      · simp only [ne_eq, not_true_eq_false, false_iff]
        rintro ⟨c, hc, hq'⟩
        injection hc with hc
        subst hc
        exact hq hq'

/-- C5 counterexample: on the cell `"abc` (a leading double quote with no
trailing quote) the code's clean-up removes the leading quote even though
no matching quote closes it, while a strip-a-single-matching-pair clean-up
would leave the cell unchanged. -/
theorem normCell_unmatched_quote_counterexample :
    normCell ('"' :: 'a' :: 'b' :: 'c' :: []) = 'a' :: 'b' :: 'c' :: [] ∧
    trimList ('"' :: 'a' :: 'b' :: 'c' :: []) = '"' :: 'a' :: 'b' :: 'c' :: [] ∧
    stripPairSpec ('"' :: 'a' :: 'b' :: 'c' :: []) =
      '"' :: 'a' :: 'b' :: 'c' :: [] ∧
    normCell ('"' :: 'a' :: 'b' :: 'c' :: []) ≠
      stripPairSpec ('"' :: 'a' :: 'b' :: 'c' :: []) := by
  refine ⟨by decide, by decide, by decide, by decide⟩

/-- C5 (amended): cell normalization trims whitespace and then removes at
most one leading quote character and at most one trailing quote character,
each independently of the other — a quote at either end is removed whether
or not a matching quote is present at the other end. -/
theorem normCell_strips_ends_independently (s : List Char) :
    ∃ a b, trimList s = a ++ normCell s ++ b ∧
      a.length ≤ 1 ∧ b.length ≤ 1 ∧
      (∀ c ∈ a, isQuoteChar c = true) ∧ (∀ c ∈ b, isQuoteChar c = true) ∧
      (a ≠ [] ↔ ∃ c cs, trimList s = c :: cs ∧ isQuoteChar c = true) ∧
      (b ≠ [] ↔ ∃ c, (stripLeadQ (trimList s)).getLast? = some c ∧
        isQuoteChar c = true) := by
  obtain ⟨a, ha, halen, haq, hane⟩ := stripLeadQ_decomp (trimList s)
  obtain ⟨b, hb, hblen, hbq, hbne⟩ := stripTrailQ_decomp (stripLeadQ (trimList s))
  refine ⟨a, b, ?_, halen, hblen, haq, hbq, hane, hbne⟩
  calc trimList s = a ++ stripLeadQ (trimList s) := ha
    _ = a ++ (stripTrailQ (stripLeadQ (trimList s)) ++ b) := by rw [← hb]
    _ = a ++ normCell s ++ b := by rw [normCell, List.append_assoc]

theorem progressList_length (n : ℕ) : (progressList n).length = n := by
  simp [progressList]

theorem progressList_get? (n i : ℕ) (hi : i < n) :
    (progressList n).get? i = some (((i + 1 : ℚ) / n) * 100) := by
  rw [progressList, List.get?_map, List.get?_range hi]
  rfl

theorem progressList_sorted (n : ℕ) :
    List.Sorted (· ≤ ·) (progressList n) := by
  rw [progressList, List.Sorted, List.pairwise_map]
  refine (List.pairwise_lt_range n).imp ?_
  intro i j hij
  have hij' : (i : ℚ) + 1 ≤ (j : ℚ) + 1 := by
    have : (i : ℚ) ≤ j := by exact_mod_cast Nat.le_of_lt hij
    linarith
  have h2 : (0 : ℚ) ≤ 100 / n := by positivity
  calc ((i : ℚ) + 1) / n * 100 = ((i : ℚ) + 1) * (100 / n) := by ring
    _ ≤ ((j : ℚ) + 1) * (100 / n) := mul_le_mul_of_nonneg_right hij' h2
    _ = ((j : ℚ) + 1) / n * 100 := by ring

/-- C6 helper: the last reported progress value is exactly `100`. -/
theorem progressList_getLast? (n : ℕ) (hn : 1 ≤ n) :
    (progressList n).getLast? = some 100 := by
  rw [List.getLast?_eq_get?, progressList_length]
  have hlt : n - 1 < n := Nat.sub_lt hn Nat.one_pos
  rw [progressList_get? n (n - 1) hlt]
  have hcast : ((n - 1 : ℕ) : ℚ) + 1 = (n : ℚ) := by
    rw [Nat.cast_sub hn]
    push_cast
    ring
  have hn0 : (n : ℚ) ≠ 0 := Nat.cast_ne_zero.mpr (by omega)
  rw [hcast, div_self hn0, one_mul]

/-- C6: over `n ≥ 1` non-blank data rows, exactly one progress value is
reported per data row (skipped rows included), the value at zero-based row
index `i` is `((i+1)/n) × 100`, the sequence is monotonically
non-decreasing, and the last value is exactly `100`. Values are modelled as
exact rationals. -/
theorem processFile_progress (text : List Char)
    (ps vs ivs : List Contact) (prog : List ℚ)
    (h : processFile text = .ok ps vs ivs prog)
    (hn : 1 ≤ (dataRowsOf (parseCSV text)).length) :
    prog.length = (dataRowsOf (parseCSV text)).length ∧
    (∀ i, i < (dataRowsOf (parseCSV text)).length →
      prog.get? i =
        some (((i + 1 : ℚ) / (dataRowsOf (parseCSV text)).length) * 100)) ∧
    List.Sorted (· ≤ ·) prog ∧
    prog.getLast? = some 100 := by
  have hprog : prog = progressList (dataRowsOf (parseCSV text)).length := by
    cases he : (resolveColumns (headersOf (parseCSV text))).email with
    | none =>
      rw [(processFile_missing_email_aborts text he).1] at h
      exact absurd h (by intro h; exact IngestResult.noConfusion h)
    | some eIdx =>
      rw [processFile_ok_components text eIdx he] at h
      simp only [IngestResult.ok.injEq] at h
      exact h.2.2.2.symm
  subst hprog
  exact ⟨progressList_length _,
    fun i hi => progressList_get? _ i hi,
    progressList_sorted _,
    progressList_getLast? _ hn⟩

/-- C8: every row of the `contacts` insert payload carries the selected
campaign id, the contact's email, and all four nullable fields — each field
key is present on every row (structurally, `InsertRow` always has all six
fields), and a field whose contact value is absent is passed as an explicit
null (`none`), not omitted. -/
theorem contactsToInsert_fields (campaignId : List Char)
    (valid : List Contact) (r : InsertRow)
    (h : r ∈ contactsToInsert campaignId valid) :
    r.campaign_id = campaignId ∧
    ∃ c ∈ valid, r.email = c.email ∧
      (c.first_name = none → r.first_name = none) ∧
      (c.last_name = none → r.last_name = none) ∧
      (c.company = none → r.company = none) ∧
      (c.title = none → r.title = none) := by
  rw [contactsToInsert, List.mem_map] at h
  obtain ⟨c, hc, rfl⟩ := h
  exact ⟨rfl, c, hc, rfl,
    fun h0 => by simp [orNull, h0],
    fun h0 => by simp [orNull, h0],
    fun h0 => by simp [orNull, h0],
    fun h0 => by simp [orNull, h0]⟩

/-- C9: the campaign-counter update after a successful submission
overwrites `total_contacts` with the size of the current batch instead of
incrementing it: two successive uploads leave exactly the state of the
second alone, and the selected campaign's counter equals the second batch's
size. -/
theorem updateTotalContacts_overwrites (cid : List Char)
    (db : List CampaignRow) (batch1 batch2 : List Contact) :
    updateTotalContacts cid batch2.length
        (updateTotalContacts cid batch1.length db)
      = updateTotalContacts cid batch2.length db ∧
    ∀ r ∈ updateTotalContacts cid batch2.length
        (updateTotalContacts cid batch1.length db),
      r.id = cid → r.total_contacts = batch2.length := by
  constructor
  · rw [updateTotalContacts, updateTotalContacts, updateTotalContacts,
      List.map_map]
    apply List.map_congr_left
    intro r hr
    by_cases h : r.id = cid <;> simp [h]
  · intro r hr hid
    rw [updateTotalContacts, List.mem_map] at hr
    obtain ⟨r0, hr0, rfl⟩ := hr
    by_cases h : r0.id = cid
    · simp [h]
    · simp only [h, if_false]
      simp only [h] at hid
      exact absurd hid h

/-- Witness for C1: the shape criterion decided at the concrete address
`a@b.c`. -/
theorem validateEmail_iff_shape_witness :
    validateEmail ('a' :: '@' :: 'b' :: '.' :: 'c' :: []) = true :=
  (validateEmail_iff_shape ('a' :: '@' :: 'b' :: '.' :: 'c' :: [])).mpr
    ⟨['a'], ['b'], ['c'], rfl, by decide, by decide, by decide,
      by decide, by decide, by decide⟩

/-- Witness for C2 at the one-data-row file `email\na@b.c`. -/
theorem processFile_partition_witness :
    (resolveColumns (headersOf (parseCSV "email\na@b.c".toList))).email = some 0 ∧
    processFile "email\na@b.c".toList =
      .ok [⟨"a@b.c".toList, none, none, none, none⟩]
          [⟨"a@b.c".toList, none, none, none, none⟩] []
          (progressList (dataRowsOf (parseCSV "email\na@b.c".toList)).length) ∧
    (([⟨"a@b.c".toList, none, none, none, none⟩] : List Contact).length
        + ([] : List Contact).length
        + (skippedRows 0 (dataRowsOf (parseCSV "email\na@b.c".toList))).length
      = (dataRowsOf (parseCSV "email\na@b.c".toList)).length ∧
      ([⟨"a@b.c".toList, none, none, none, none⟩] : List Contact).length
        = ([⟨"a@b.c".toList, none, none, none, none⟩] : List Contact).length
          + ([] : List Contact).length) :=
  ⟨by decide, rfl,
    processFile_partition "email\na@b.c".toList 0
      [⟨"a@b.c".toList, none, none, none, none⟩]
      [⟨"a@b.c".toList, none, none, none, none⟩] []
      (progressList (dataRowsOf (parseCSV "email\na@b.c".toList)).length)
      (by decide) rfl⟩

/-- Witness for C3: a header row whose only cell is `EMAIL` resolves the
email column to index 0. -/
theorem resolveColumns_leftmost_witness :
    (resolveColumns (headersOf [["EMAIL".toList]])).col .email = some 0 :=
  ((resolveColumns_leftmost .email ["EMAIL".toList] []).1 0).mpr
    ⟨"EMAIL".toList, rfl, by decide,
      fun j hj _ _ => absurd hj (Nat.not_lt_zero j)⟩

/-- Witness for C4 at the email-less file `name,phone\nx,y`. -/
theorem processFile_missing_email_aborts_witness :
    (resolveColumns (headersOf (parseCSV "name,phone\nx,y".toList))).email = none ∧
    processFile "name,phone\nx,y".toList = .missingEmailColumn :=
  ⟨by decide,
    (processFile_missing_email_aborts "name,phone\nx,y".toList (by decide)).1⟩

/-- Witness for C5 (amended) at the cell `"x`. -/
theorem normCell_strips_ends_independently_witness :
    ∃ a b, trimList ('"' :: 'x' :: []) = a ++ normCell ('"' :: 'x' :: []) ++ b ∧
      a.length ≤ 1 ∧ b.length ≤ 1 ∧
      (∀ c ∈ a, isQuoteChar c = true) ∧ (∀ c ∈ b, isQuoteChar c = true) ∧
      (a ≠ [] ↔ ∃ c cs, trimList ('"' :: 'x' :: []) = c :: cs ∧
        isQuoteChar c = true) ∧
      (b ≠ [] ↔ ∃ c, (stripLeadQ (trimList ('"' :: 'x' :: []))).getLast? = some c ∧
        isQuoteChar c = true) :=
  normCell_strips_ends_independently ('"' :: 'x' :: [])

/-- Witness for C6 at the one-data-row file `email\na@b.c`. -/
theorem processFile_progress_witness :
    processFile "email\na@b.c".toList =
      .ok [⟨"a@b.c".toList, none, none, none, none⟩]
          [⟨"a@b.c".toList, none, none, none, none⟩] []
          (progressList (dataRowsOf (parseCSV "email\na@b.c".toList)).length) ∧
    1 ≤ (dataRowsOf (parseCSV "email\na@b.c".toList)).length ∧
    List.Sorted (· ≤ ·)
      (progressList (dataRowsOf (parseCSV "email\na@b.c".toList)).length) ∧
    (progressList (dataRowsOf (parseCSV "email\na@b.c".toList)).length).getLast?
      = some 100 :=
  ⟨rfl, by decide,
    (processFile_progress "email\na@b.c".toList
      [⟨"a@b.c".toList, none, none, none, none⟩]
      [⟨"a@b.c".toList, none, none, none, none⟩] []
      (progressList (dataRowsOf (parseCSV "email\na@b.c".toList)).length)
      rfl (by decide)).2.2.1,
    (processFile_progress "email\na@b.c".toList
      [⟨"a@b.c".toList, none, none, none, none⟩]
      [⟨"a@b.c".toList, none, none, none, none⟩] []
      (progressList (dataRowsOf (parseCSV "email\na@b.c".toList)).length)
      rfl (by decide)).2.2.2⟩

/-- Witness for C7 at the file `email\na@b.c\nbad`, which yields one valid
and one invalid contact. -/
theorem processFile_order_preserved_witness :
    (resolveColumns (headersOf (parseCSV "email\na@b.c\nbad".toList))).email
      = some 0 ∧
    processFile "email\na@b.c\nbad".toList =
      .ok [⟨"a@b.c".toList, none, none, none, none⟩,
           ⟨"bad".toList, none, none, none, none⟩]
          [⟨"a@b.c".toList, none, none, none, none⟩]
          [⟨"bad".toList, none, none, none, none⟩]
          (progressList (dataRowsOf (parseCSV "email\na@b.c\nbad".toList)).length) ∧
    List.Sublist ([⟨"a@b.c".toList, none, none, none, none⟩] : List Contact)
      ([⟨"a@b.c".toList, none, none, none, none⟩,
        ⟨"bad".toList, none, none, none, none⟩] : List Contact) ∧
    List.Sublist ([⟨"bad".toList, none, none, none, none⟩] : List Contact)
      ([⟨"a@b.c".toList, none, none, none, none⟩,
        ⟨"bad".toList, none, none, none, none⟩] : List Contact) :=
  ⟨by decide, rfl,
    (processFile_order_preserved "email\na@b.c\nbad".toList 0
      [⟨"a@b.c".toList, none, none, none, none⟩,
       ⟨"bad".toList, none, none, none, none⟩]
      [⟨"a@b.c".toList, none, none, none, none⟩]
      [⟨"bad".toList, none, none, none, none⟩]
      (progressList (dataRowsOf (parseCSV "email\na@b.c\nbad".toList)).length)
      (by decide) rfl).1,
    (processFile_order_preserved "email\na@b.c\nbad".toList 0
      [⟨"a@b.c".toList, none, none, none, none⟩,
       ⟨"bad".toList, none, none, none, none⟩]
      [⟨"a@b.c".toList, none, none, none, none⟩]
      [⟨"bad".toList, none, none, none, none⟩]
      (progressList (dataRowsOf (parseCSV "email\na@b.c\nbad".toList)).length)
      (by decide) rfl).2⟩

/-- Witness for C8 at a one-contact batch with all optional fields absent. -/
theorem contactsToInsert_fields_witness :
    (⟨"camp".toList, "a@b.c".toList, none, none, none, none⟩ : InsertRow) ∈
      contactsToInsert "camp".toList [⟨"a@b.c".toList, none, none, none, none⟩] ∧
    ((⟨"camp".toList, "a@b.c".toList, none, none, none, none⟩ :
        InsertRow).campaign_id = "camp".toList ∧
      ∃ c ∈ [(⟨"a@b.c".toList, none, none, none, none⟩ : Contact)],
        (⟨"camp".toList, "a@b.c".toList, none, none, none, none⟩ :
          InsertRow).email = c.email ∧
        (c.first_name = none →
          (⟨"camp".toList, "a@b.c".toList, none, none, none, none⟩ :
            InsertRow).first_name = none) ∧
        (c.last_name = none →
          (⟨"camp".toList, "a@b.c".toList, none, none, none, none⟩ :
            InsertRow).last_name = none) ∧
        (c.company = none →
          (⟨"camp".toList, "a@b.c".toList, none, none, none, none⟩ :
            InsertRow).company = none) ∧
        (c.title = none →
          (⟨"camp".toList, "a@b.c".toList, none, none, none, none⟩ :
            InsertRow).title = none)) :=
  ⟨by decide,
    contactsToInsert_fields "camp".toList
      [⟨"a@b.c".toList, none, none, none, none⟩]
      ⟨"camp".toList, "a@b.c".toList, none, none, none, none⟩ (by decide)⟩

/-- Witness for C9: an empty first batch followed by a one-contact second
batch over a campaign whose counter started at 7. -/
theorem updateTotalContacts_overwrites_witness :
    updateTotalContacts ['x']
        ([(⟨['e'], none, none, none, none⟩ : Contact)].length)
        (updateTotalContacts ['x'] (([] : List Contact).length) [⟨['x'], 7⟩])
      = updateTotalContacts ['x']
          ([(⟨['e'], none, none, none, none⟩ : Contact)].length) [⟨['x'], 7⟩] :=
  (updateTotalContacts_overwrites ['x'] [⟨['x'], 7⟩] []
    [⟨['e'], none, none, none, none⟩]).1

/-- Witness for C10: a one-cell row against an email column index of 5. -/
theorem short_row_is_skipped_witness :
    ([['a']] : List (List Char)).length ≤ 5 ∧
    emailCell 5 [['a']] = none ∧
    processRows ⟨some 5, none, none, none, none⟩ 5 [[['a']]]
      = processRows ⟨some 5, none, none, none, none⟩ 5 [] :=
  ⟨by decide,
    (short_row_is_skipped ⟨some 5, none, none, none, none⟩ 5 [['a']] []
      (by decide)).1,
    (short_row_is_skipped ⟨some 5, none, none, none, none⟩ 5 [['a']] []
      (by decide)).2.1⟩

end ColdNurture
